import Mathlib

/-!
Verification of the calendar-events manager (single-file Streamlit app
`app.py`) against its natural-language specification.

The Python source is shallowly embedded: pure string manipulation is
translated to Lean functions over `String`/`List Char`; every remote HTTP
interaction is passed in as an explicit oracle value (the response the
remote system would return), and Streamlit message emission (`st.error`,
`st.warning`, `st.info`, `st.success`) is modelled by returning lists of
messages.  Python `dict`s keyed by strings are modelled as association
lists with Python's insertion semantics (update-in-place for an existing
key, append for a fresh key).
-/

namespace CalendarEvents

/-! ## Python string primitives

`str.strip()` removes leading and trailing Unicode whitespace; the set
below is the whitespace set used by CPython (`Py_UNICODE_ISSPACE`).
`str.lstrip("﻿")` removes leading BOM characters only. -/

/-- Characters treated as whitespace by Python's `str.strip()`. -/
def isPySpace (c : Char) : Bool :=
  let n := c.toNat
  (9 ≤ n && n ≤ 13) || (28 ≤ n && n ≤ 31) || n = 32 || n = 0x85 || n = 0xa0 ||
    n = 0x1680 || (0x2000 ≤ n && n ≤ 0x200a) || n = 0x2028 || n = 0x2029 ||
    n = 0x202f || n = 0x205f || n = 0x3000

/-- Left strip on character lists. -/
def stripL (l : List Char) : List Char := l.dropWhile isPySpace

/-- Right strip on character lists. -/
def stripR (l : List Char) : List Char := (l.reverse.dropWhile isPySpace).reverse

/-- Python `s.strip()`. -/
def pyStrip (s : String) : String := ⟨stripR (stripL s.data)⟩

/-- Python `s.lstrip("﻿")`: drop leading byte-order marks. -/
def pyLstripBOM (s : String) : String := ⟨s.data.dropWhile (· = '﻿')⟩

/-- Does the character list `n` occur as a leading block of `h`? -/
def listStartsWith : List Char → List Char → Bool
  | _, [] => true
  | [], _ :: _ => false
  | c :: cs, d :: ds => c = d && listStartsWith cs ds

/-- Substring occurrence on character lists (Python's `needle in hay`). -/
def listHasSub : List Char → List Char → Bool
  | [], n => n.isEmpty
  | c :: t, n => listStartsWith (c :: t) n || listHasSub t n

/-- Python's `needle in hay` on strings. -/
def strHasSub (hay needle : String) : Bool := listHasSub hay.data needle.data

/-- Split a character list at every occurrence of the separator. -/
def splitCharAux (sep : Char) : List Char → List Char → List (List Char)
  | [], acc => [acc.reverse]
  | c :: t, acc =>
    if c = sep then acc.reverse :: splitCharAux sep t []
    else splitCharAux sep t (c :: acc)

/-- Split a string on a single-character separator (Python `s.split(sep)`,
and the field splitting performed by `csv` readers for unquoted input). -/
def splitOnChar (s : String) (sep : Char) : List String :=
  (splitCharAux sep s.data []).map (fun l => ⟨l⟩)

/-! ## CSV normalizer (`_normalize_fields`, `_normalize_row`, app.py 23-29)

Header names and row keys may be absent (`None` in Python), hence
`Option String`; `(x or "")` coalesces `None` to the empty string. -/

/-- One header name normalized: `(f or "").strip().lstrip("﻿")`. -/
def normalizeField (f : Option String) : String := pyLstripBOM (pyStrip (f.getD ""))

/-- Embeds `_normalize_fields` (app.py 23-25): strip BOM and whitespace from header names. -/
def normalize_fields (fields : List (Option String)) : List String :=
  fields.map normalizeField

/-- Embeds `_normalize_row` (app.py 27-29): strip BOM and whitespace from row *keys*;
values are only coalesced from `None` to `""`. -/
def normalize_row (row : List (Option String × Option String)) : List (String × String) :=
  row.map (fun kv => (normalizeField kv.1, kv.2.getD ""))

/-! ## Python dict model

Association list with Python `dict` insertion semantics: assigning to an
existing key updates it in place (keeping its position), assigning to a
fresh key appends it.  Lookup returns the value of the first (unique)
matching key. -/

/-- Python `d[k] = v`. -/
def dictInsert (d : List (String × α)) (k : String) (v : α) : List (String × α) :=
  if d.any (fun p => p.1 == k) then
    d.map (fun p => if p.1 == k then (k, v) else p)
  else
    d ++ [(k, v)]

/-- Python `d.get(k)`. -/
def dictGet (d : List (String × α)) (k : String) : Option α :=
  (d.find? (fun p => p.1 == k)).map (fun p => p.2)

/-! ## Name resolver: employee lookup (`get_employees`, app.py 210-243)

The remote employee list is the decoded JSON payload; each entry has an
`id` (accessed unconditionally elsewhere, so modelled as present) and a
`name` object whose three fields may be absent (`None`): the code reads
them as `(emp['name'].get(f) or '').strip()`. -/

structure Employee where
  id : String
  lastName : Option String
  firstName : Option String
  middleName : Option String
  deriving Repr, DecidableEq

/-- Value stored in the employee lookup: `{'id': ..., 'name': full_name}`. -/
structure EmployeeEntry where
  id : String
  name : String
  deriving Repr, DecidableEq

/-- Python `(emp['name'].get('lastName') or '').strip()`. -/
def lastN (emp : Employee) : String := pyStrip (emp.lastName.getD "")

/-- Python `(emp['name'].get('firstName') or '').strip()`. -/
def firstN (emp : Employee) : String := pyStrip (emp.firstName.getD "")

/-- Python `(emp['name'].get('middleName') or '').strip()`. -/
def middleN (emp : Employee) : String := pyStrip (emp.middleName.getD "")

/-- Display name computed in `get_employees` (app.py 225-229). -/
def fullNameOf (last_name first_name middle_name : String) : String :=
  if first_name = "" ∧ middle_name = "" then last_name
  else if middle_name = "" then last_name ++ " " ++ first_name
  else pyStrip (last_name ++ " " ++ first_name ++ " " ++ middle_name)

/-- Data-quality warning for an employee without a surname (app.py 222). -/
def noSurnameWarning (emp : Employee) : String :=
  "Пропущен сотрудник с ID " ++ emp.id ++ ": отсутствует фамилия"

/-- Body of the per-employee loop of `get_employees` (app.py 216-236),
threading the lookup under construction and the warnings emitted so far. -/
def processEmp (acc : List (String × EmployeeEntry) × List String) (emp : Employee) :
    List (String × EmployeeEntry) × List String :=
  let last_name := lastN emp
  let first_name := firstN emp
  let middle_name := middleN emp
  if last_name = "" then
    (acc.1, acc.2 ++ [noSurnameWarning emp])
  else
    let full_name := fullNameOf last_name first_name middle_name
    let entry : EmployeeEntry := ⟨emp.id, full_name⟩
    let d1 := if middle_name ≠ "" then
        dictInsert acc.1 (last_name ++ " " ++ first_name ++ " " ++ middle_name) entry
      else acc.1
    let d2 := if first_name ≠ "" then dictInsert d1 (last_name ++ " " ++ first_name) entry
      else d1
    let d3 := if first_name = "" ∧ middle_name = "" then dictInsert d2 last_name entry
      else d2
    (d3, acc.2)

/-- Embeds `get_employees` on a successfully decoded employee list (app.py 214-237):
the employee lookup together with the `st.warning` messages emitted. -/
def get_employees (employees : List Employee) : List (String × EmployeeEntry) × List String :=
  employees.foldl processEmp ([], [])

/-! ## Row-side key construction (`main`, app.py 400-405)

The caller has already stripped the three row fields (app.py 385-387). -/

/-- Row-side full-name key: three-part if the row has a middle name, else
two-part if it has a first name, else the surname alone. -/
def rowFullName (surname name middle_name : String) : String :=
  if middle_name ≠ "" then pyStrip (surname ++ " " ++ name ++ " " ++ middle_name)
  else if name ≠ "" then pyStrip (surname ++ " " ++ name)
  else surname

/-! ## Date normalizer (`parse_date`, app.py 245-265)

`datetime.strptime` with the formats `%d/%m/%y` and `%d/%m/%Y`: each
format component matches the exact digit patterns used by CPython's
`_strptime` (`%d`: 1-2 digits valued 1-31; `%m`: 1-2 digits valued 1-12;
`%y`: exactly two digits, mapped 00-68 ↦ 2000-2068 and 69-99 ↦ 1969-1999;
`%Y`: exactly four digits), the whole string must be consumed, and the
resulting calendar date must be valid (`datetime` raises `ValueError`
otherwise, which the code catches to try the next format). -/

structure DateTime where
  year : Nat
  month : Nat
  day : Nat
  hour : Nat
  minute : Nat
  second : Nat
  micro : Nat
  deriving Repr, DecidableEq

/-- Numeric value of a digit list (most significant first). -/
def digitsVal (l : List Char) : Nat := l.foldl (fun acc c => 10 * acc + (c.toNat - 48)) 0

/-- CPython `%d` component: 1-2 digits, value 1-31. -/
def matchDay (s : String) : Option Nat :=
  let l := s.data
  if l.all Char.isDigit && (decide (1 ≤ l.length) && decide (l.length ≤ 2)) then
    let v := digitsVal l
    if 1 ≤ v ∧ v ≤ 31 then some v else none
  else none

/-- CPython `%m` component: 1-2 digits, value 1-12. -/
def matchMonth (s : String) : Option Nat :=
  let l := s.data
  if l.all Char.isDigit && (decide (1 ≤ l.length) && decide (l.length ≤ 2)) then
    let v := digitsVal l
    if 1 ≤ v ∧ v ≤ 12 then some v else none
  else none

/-- CPython `%y` component: exactly two digits, with the century mapping. -/
def matchYear2 (s : String) : Option Nat :=
  let l := s.data
  if l.all Char.isDigit && decide (l.length = 2) then
    let v := digitsVal l
    some (if v ≤ 68 then 2000 + v else 1900 + v)
  else none

/-- CPython `%Y` component: exactly four digits. -/
def matchYear4 (s : String) : Option Nat :=
  let l := s.data
  if l.all Char.isDigit && decide (l.length = 4) then some (digitsVal l) else none

/-- Gregorian leap year. -/
def isLeap (y : Nat) : Bool := y % 4 = 0 && (y % 100 ≠ 0 || y % 400 = 0)

/-- Days in a month. -/
def daysInMonth (y m : Nat) : Nat :=
  if m = 2 then (if isLeap y then 29 else 28)
  else if m = 4 ∨ m = 6 ∨ m = 9 ∨ m = 11 then 30
  else 31

/-- Python `datetime.strptime(s, "%d/%m/" + yfmt)`: split on the literal slashes,
match each component, and validate the calendar date (`MINYEAR = 1`). -/
def strptimeDM (matchYear : String → Option Nat) (s : String) : Option DateTime :=
  match splitOnChar s '/' with
  | [c1, c2, c3] =>
    (matchDay c1).bind fun d =>
      (matchMonth c2).bind fun m =>
        (matchYear c3).bind fun y =>
          if 1 ≤ y ∧ d ≤ daysInMonth y m then some ⟨y, m, d, 0, 0, 0, 0⟩ else none
  | _ => none

/-- Python `datetime.strptime(s, "%d/%m/%y")`. -/
def strptimeDMY2 (s : String) : Option DateTime := strptimeDM matchYear2 s

/-- Python `datetime.strptime(s, "%d/%m/%Y")`. -/
def strptimeDMY4 (s : String) : Option DateTime := strptimeDM matchYear4 s

/-- Python `dt.replace(hour=23, minute=59, second=59)` applied for end dates (app.py 256-257). -/
def applyEndOfDay (is_end_date : Bool) (dt : DateTime) : DateTime :=
  if is_end_date then { dt with hour := 23, minute := 59, second := 59 } else dt

/-- A timezone is modelled by its UTC offset in seconds as a function of the
local wall-clock instant (`pytz` localization followed by conversion to UTC
subtracts this offset). -/
structure Tz where
  offsetSeconds : DateTime → Int

/-- Timezone `Europe/Moscow`, UTC offset +3 hours (spec: "timezone=Europe/Moscow,
UTC offset +3"; the tz database is an external collaborator). -/
def moscowTz : Tz := ⟨fun _ => 10800⟩

/-- Next calendar day. -/
def nextDay : Nat × Nat × Nat → Nat × Nat × Nat
  | (y, m, d) =>
    if d < daysInMonth y m then (y, m, d + 1)
    else if m < 12 then (y, m + 1, 1)
    else (y + 1, 1, 1)

/-- Previous calendar day. -/
def prevDay : Nat × Nat × Nat → Nat × Nat × Nat
  | (y, m, d) =>
    if 1 < d then (y, m, d - 1)
    else if 1 < m then (y, m - 1, daysInMonth y (m - 1))
    else (y - 1, 12, 31)

/-- Iterate a function. -/
def iterN (f : α → α) : Nat → α → α
  | 0, a => a
  | n + 1, a => iterN f n (f a)

/-- Shift a calendar date by a (signed) number of days. -/
def shiftDays (p : Nat × Nat × Nat) (n : Int) : Nat × Nat × Nat :=
  if 0 ≤ n then iterN nextDay n.toNat p else iterN prevDay (-n).toNat p

/-- Shift a wall-clock datetime by a (signed) number of seconds, carrying
into the calendar date; the sub-second field is untouched. -/
def shiftSeconds (dt : DateTime) (delta : Int) : DateTime :=
  let t : Int := (dt.hour * 3600 + dt.minute * 60 + dt.second : Nat) + delta
  let dayShift := Int.fdiv t 86400
  let tod := (Int.fmod t 86400).toNat
  let date := shiftDays (dt.year, dt.month, dt.day) dayShift
  ⟨date.1, date.2.1, date.2.2, tod / 3600, tod % 3600 / 60, tod % 60, dt.micro⟩

/-- Python `tz.localize(dt).astimezone(pytz.UTC)`: reinterpret the naive local
datetime in `tz` and convert to UTC. -/
def toUtc (tz : Tz) (dt : DateTime) : DateTime := shiftSeconds dt (-(tz.offsetSeconds dt))

/-- Left-pad a numeral with zeros. -/
def padNum (width n : Nat) : String :=
  let s := toString n
  ⟨List.replicate (width - s.data.length) '0' ++ s.data⟩

/-- Python `dt.strftime("%Y-%m-%dT%H:%M:%S.%fZ")`. -/
def fmtUtcIso (dt : DateTime) : String :=
  padNum 4 dt.year ++ "-" ++ padNum 2 dt.month ++ "-" ++ padNum 2 dt.day ++ "T" ++
    padNum 2 dt.hour ++ ":" ++ padNum 2 dt.minute ++ ":" ++ padNum 2 dt.second ++ "." ++
    padNum 6 dt.micro ++ "Z"

/-- The `st.warning` text for an unparseable date (app.py 264). -/
def badDateWarning (date_str : String) : String :=
  "Неверный формат даты: '" ++ date_str ++ "' (ожидался ДД/ММ/ГГ или ДД/ММ/ГГГГ)"

/-- Embeds `parse_date` (app.py 245-265).  The first component is the returned
value (`None` or the UTC ISO-8601 string), the second the list of
`st.warning` messages emitted. -/
def parse_date (date_str : String) (tz : Tz) (is_end_date : Bool) :
    Option String × List String :=
  if pyStrip date_str = "" then (none, [])
  else
    match strptimeDMY2 (pyStrip date_str) with
    | some dt => (some (fmtUtcIso (toUtc tz (applyEndOfDay is_end_date dt))), [])
    | none =>
      match strptimeDMY4 (pyStrip date_str) with
      | some dt => (some (fmtUtcIso (toUtc tz (applyEndOfDay is_end_date dt))), [])
      | none => (none, [badDateWarning date_str])

/-! ## Remote calls and outcome classification

A remote HTTP interaction either yields a response (status code and body
text) or raises a transport exception with a message; both are supplied
to the embedded functions as oracle values. -/

inductive RemoteResult where
  | resp (status : Nat) (text : String)
  | exn (message : String)
  deriving Repr, DecidableEq

/-- Request body of the create-event call (app.py 270-279).  `uuid.uuid4()`
is nondeterministic, so the generated event id is a parameter. -/
structure CreateBody where
  id : String
  employeeId : String
  typeId : String
  start : String
  end_ : String
  allDay : Bool
  confirmed : Bool
  comment : String
  deriving Repr, DecidableEq

/-- Embeds `create_schedule` (app.py 268-289): builds the request body, issues the
create call (the remote behaviour is the `responder` oracle), and
classifies the answer.  Returns the body sent and the `(success, message)`
pair of the Python function. -/
def create_schedule (responder : CreateBody → RemoteResult) (event_id employee_id
    employee_name calendar_type_id start_date end_date : String) :
    CreateBody × (Bool × String) :=
  let data : CreateBody :=
    { id := event_id, employeeId := employee_id, typeId := calendar_type_id,
      start := start_date, end_ := end_date, allDay := true, confirmed := true,
      comment := "Запланировано автоматически через Streamlit" }
  (data,
    match responder data with
    | .resp status text =>
      if status = 200 ∨ status = 201 then
        (true, "Событие создано для сотрудника: " ++ employee_name)
      else if status = 400 ∧ strHasSub text "Employee" ∧ strHasSub text "is fired" then
        (false, "⚠️ Пропущено: Сотрудник " ++ employee_name ++ " уволен")
      else
        (false, "Ошибка создания события для " ++ employee_name ++ ": " ++
          toString status ++ " — " ++ text)
    | .exn e => (false, "Не удалось создать событие для " ++ employee_name ++ ": " ++ e))

/-- Embeds `delete_calendar_event` (app.py 199-208). -/
def delete_calendar_event (responder : RemoteResult) (event_id : String) : Bool × String :=
  match responder with
  | .resp status text =>
    if status = 200 ∨ status = 204 then
      (true, "Успешно удалено календарное событие " ++ event_id)
    else
      (false, "Ошибка при удалении календарного события " ++ event_id ++ ": " ++
        toString status ++ " — " ++ text)
  | .exn e => (false, "Не удалось удалить событие " ++ event_id ++ ": " ++ e)

/-- Result rendering used for both orchestrators (app.py 424-428 and
484-489): a message is displayed with `st.error` exactly when it contains
`"Ошибка"` or `"⚠️"`, and with `st.success` otherwise. -/
def renderedAsError (result : String) : Bool :=
  strHasSub result "Ошибка" || strHasSub result "⚠️"

/-! ## Create-path per-row pipeline (`main`, app.py 382-421) -/

/-- Python `rown.get(k, '')` on a normalized row. -/
def rowGet (rown : List (String × String)) (k : String) : String :=
  (dictGet rown k).getD ""

/-- Outcome of one CSV data row: the create call issued (if any), the
`st.warning` messages emitted by `parse_date`, and the row's result
message appended to `results`. -/
structure RowOutcome where
  createCall : Option CreateBody
  warnings : List String
  message : String
  deriving Repr, DecidableEq

/-- One iteration of the row loop (app.py 382-421).  `employees` and
`calendar_types` are the two lookups, `event_id` stands for the
`uuid.uuid4()` drawn in `create_schedule`, and `responder` is the remote
create endpoint. -/
def processRow (employees : List (String × EmployeeEntry))
    (calendar_types : List (String × String)) (tz : Tz) (event_id : String)
    (responder : CreateBody → RemoteResult) (row : List (Option String × Option String)) :
    RowOutcome :=
  let rown := normalize_row row
  let surname := pyStrip (rowGet rown "Фамилия")
  let name := pyStrip (rowGet rown "Имя")
  let middle_name := pyStrip (rowGet rown "Отчество")
  let event_type_name := pyStrip (rowGet rown "Тип")
  if event_type_name = "" then
    ⟨none, [], pyStrip ("⚠️ Пропущено: Нет типа события для " ++ surname ++ " " ++ name ++
      " " ++ middle_name)⟩
  else
    let startR := parse_date (rowGet rown "Дата1") tz false
    let endR := parse_date (rowGet rown "Дата2") tz true
    if startR.1.isNone ∨ endR.1.isNone then
      ⟨none, startR.2 ++ endR.2, pyStrip ("⚠️ Пропущено: Неверные или отсутствующие даты для " ++
        surname ++ " " ++ name ++ " " ++ middle_name)⟩
    else
      let full_name := rowFullName surname name middle_name
      match dictGet employees full_name with
      | none => ⟨none, startR.2 ++ endR.2, "⚠️ Пропущено: Сотрудник не найден: " ++ full_name⟩
      | some employee_data =>
        match dictGet calendar_types event_type_name with
        | none => ⟨none, startR.2 ++ endR.2,
            "⚠️ Пропущено: Тип события '" ++ event_type_name ++ "' не найден"⟩
        | some event_type_id =>
          let r := create_schedule responder event_id employee_data.id employee_data.name
            event_type_id (startR.1.getD "") (endR.1.getD "")
          ⟨some r.1, startR.2 ++ endR.2, r.2.2⟩

/-! ## Delete path (`get_employees_by_location`, `main` tab 2, app.py 166-179, 459-489) -/

/-- Message severity of the Streamlit widget used. -/
inductive MsgLevel where
  | info
  | success
  | warning
  | error
  deriving Repr, DecidableEq

/-- One entry of the remote employee payload as used by the delete path. -/
structure EmployeeLoc where
  id : String
  locationIds : List String
  deriving Repr, DecidableEq

/-- Oracle for the employees fetch of `get_employees_by_location`. -/
inductive EmployeesFetch where
  | ok (employees : List EmployeeLoc)
  | httpError (status : Nat) (text : String)
  | exn (message : String)
  deriving Repr, DecidableEq

/-- Embeds `get_employees_by_location` (app.py 166-179): the filtered employee ids
and the messages emitted. -/
def get_employees_by_location (fetch : EmployeesFetch) (location_id : String) :
    List String × List (MsgLevel × String) :=
  match fetch with
  | .ok employees =>
    let filtered := (employees.filter (fun emp => emp.locationIds.contains location_id)).map (·.id)
    (filtered, [(.info, "Найдено " ++ toString filtered.length ++ " сотрудников в выбранной локации")])
  | .httpError status text =>
    ([], [(.error, "Ошибка при получении сотрудников: " ++ toString status ++ " — " ++ text)])
  | .exn e => ([], [(.error, "Не удалось получить сотрудников: " ++ e)])

/-- Oracle for the calendar-events query (`get_calendar_events`); on success
it carries the ids of the returned events. -/
inductive EventsFetch where
  | ok (eventIds : List String)
  | httpError (status : Nat) (text : String)
  | exn (message : String)
  deriving Repr, DecidableEq

/-- The delete action of `main` (app.py 470-489), starting after the UTC
range computation: resolve employees, query events, delete each returned
event.  Returns the messages emitted (with the severity they are rendered
at) and the list of event ids for which a remote delete call was issued. -/
def deleteEventsAction (empFetch : EmployeesFetch) (location_id : String)
    (evFetch : EventsFetch) (deleteResponder : String → RemoteResult) :
    List (MsgLevel × String) × List String :=
  let fetched := get_employees_by_location empFetch location_id
  if fetched.1.isEmpty then
    (fetched.2 ++ [(.error, "Не удалось получить сотрудников для указанной локации.")], [])
  else
    let evs : List String × List (MsgLevel × String) :=
      match evFetch with
      | .ok eventIds =>
        (eventIds, [(.info, "Получено " ++ toString eventIds.length ++ " календарных событий")])
      | .httpError status text =>
        ([], [(.error, "Ошибка при получении календарных событий: " ++ toString status ++
          " — " ++ text)])
      | .exn e => ([], [(.error, "Не удалось получить календарные события: " ++ e)])
    let results := evs.1.map (fun event_id =>
      (delete_calendar_event (deleteResponder event_id) event_id).2)
    (fetched.2 ++ evs.2 ++
      [(.info, "Найдено " ++ toString evs.1.length ++ " событий для удаления")] ++
      results.map (fun r => (if renderedAsError r then MsgLevel.error else MsgLevel.success, r)),
      evs.1)

/-! ## CSV validation and the create action (`main` tab 1, app.py 321-437)

Both the pandas preview pass and the `csv.DictReader` pass check, for the
delimiters `;` then `,`, that the four mandatory columns occur in the
normalized header; the file is modelled by its decoded text, header
parsing by splitting the first line on the candidate delimiter (CSV
quoting is not exercised by header rows of this format). -/

/-- The mandatory columns (app.py 327). -/
def required_columns : List String := ["Фамилия", "Тип", "Дата1", "Дата2"]

/-- First line of the decoded file. -/
def headerLineOf (text : String) : String := (splitOnChar text '\n').headD ""

/-- Normalized header fields under a candidate delimiter. -/
def headerFieldsWith (text : String) (delim : Char) : List String :=
  normalize_fields ((splitOnChar (headerLineOf text) delim).map some)

/-- Python `all(col in fieldnames_norm for col in required_columns)`. -/
def hasRequiredColumns (fields : List String) : Bool :=
  required_columns.all (fun col => fields.contains col)

/-- Delimiter detection (app.py 331-344 and 372-377): try `;` first, then
`,`; accept the first delimiter under which all mandatory columns are
present in the normalized header. -/
def detectDelimiter (text : String) : Option Char :=
  if hasRequiredColumns (headerFieldsWith text ';') then some ';'
  else if hasRequiredColumns (headerFieldsWith text ',') then some ','
  else none

/-- The validation error shown when no delimiter works (app.py 346, 379). -/
def missingColumnsError : String :=
  "Ошибка: CSV-файл не содержит всех обязательных столбцов: 'Фамилия', 'Тип', 'Дата1', 'Дата2'."

/-- Remote interactions of the create action, in order of occurrence. -/
inductive RemoteFetch where
  | fetchTypes
  | fetchEmployees
  | createEvent (body : CreateBody)
  deriving Repr, DecidableEq

/-- A `csv.DictReader` row: raw header names paired with the line's fields;
short rows are padded with `None` (`restval`). -/
def zipRow (keys : List String) (vals : List String) : List (Option String × Option String) :=
  keys.enum.map (fun ik => (some ik.2, vals[ik.1]?))

/-- The create action of `main` (app.py 321-437): CSV validation, the two
reference fetches, then the row loop.  `typesDict` is the dict returned by
`load_calendar_types` (empty on failure), `empList` the decoded employees
payload, and `eventIds` the stream of generated uuids.  Returns the
per-row result messages and the trace of remote interactions.  The
`DictReader` pass re-detects the delimiter with the same criterion as the
preview pass, so a single detection is performed here. -/
def createAction (text : String) (typesDict : List (String × String))
    (empList : List Employee) (tz : Tz) (eventIds : List String)
    (responder : CreateBody → RemoteResult) : List String × List RemoteFetch :=
  match detectDelimiter text with
  | none => ([missingColumnsError], [])
  | some delim =>
    if typesDict.isEmpty then
      (["Не удалось загрузить типы событий. Проверьте API-токен и подключение."],
        [.fetchTypes])
    else
      let empDict := (get_employees empList).1
      if empDict.isEmpty then
        (["Не удалось загрузить сотрудников. Проверьте API-токен и подключение."],
          [.fetchTypes, .fetchEmployees])
      else
        let keys := splitOnChar (headerLineOf text) delim
        let rows := ((splitOnChar text '\n').drop 1).filter (fun l => l ≠ "")
        let outcomes := rows.enum.map (fun il =>
          processRow empDict typesDict tz (eventIds.getD il.1 "") responder
            (zipRow keys (splitOnChar il.2 delim)))
        (outcomes.map (fun o => o.message),
          [.fetchTypes, .fetchEmployees] ++
            (outcomes.filterMap (fun o => o.createCall)).map RemoteFetch.createEvent)

/-! ## Supporting lemmas -/

theorem str_data_append (s t : String) : (s ++ t).data = s.data ++ t.data := rfl

theorem eq_empty_iff_data {s : String} : s = "" ↔ s.data = [] := by
  constructor
  · intro h
    subst h
    rfl
  · intro h
    cases s with
    | mk l =>
      simp only [String.data] at h
      subst h
      rfl

theorem append_sep_append_ne (s sep t : String) (h : sep ≠ "") : s ≠ s ++ sep ++ t := by
  intro hc
  have hlen := congrArg (fun u : String => u.data.length) hc
  simp only [str_data_append, List.length_append] at hlen
  have hsep : sep.data ≠ [] := fun hd => h (eq_empty_iff_data.2 hd)
  have : 0 < sep.data.length := List.length_pos.2 hsep
  omega

/-- A space character occurs in `a ++ " " ++ b`. -/
theorem space_mem_sep (a b : String) : ' ' ∈ (a ++ " " ++ b).data := by
  simp [str_data_append]

/-- Predicate: a string containing no Python-whitespace character at all. -/
def noWS (s : String) : Prop := ∀ c ∈ s.data, isPySpace c = false

instance (s : String) : Decidable (noWS s) :=
  inferInstanceAs (Decidable (∀ c ∈ s.data, isPySpace c = false))

theorem noWS_no_space {s : String} (h : noWS s) : ' ' ∉ s.data := by
  intro hmem
  have := h ' ' hmem
  simp [isPySpace] at this

theorem mem_dictInsert {α : Type} {d : List (String × α)} {k : String} {v : α}
    {p : String × α} (h : p ∈ dictInsert d k v) : p ∈ d ∨ p = (k, v) := by
  unfold dictInsert at h
  split at h
  · rcases List.mem_map.1 h with ⟨q, hqd, hq⟩
    by_cases hk : q.1 == k
    · right
      rw [if_pos hk] at hq
      exact hq.symm
    · left
      rw [if_neg hk] at hq
      exact hq ▸ hqd
  · rcases List.mem_append.1 h with h1 | h1
    · exact Or.inl h1
    · right
      simpa using h1

theorem dictGet_mem {α : Type} {d : List (String × α)} {k : String} {v : α}
    (h : dictGet d k = some v) : (k, v) ∈ d := by
  unfold dictGet at h
  rcases Option.map_eq_some'.1 h with ⟨q, hq, hv⟩
  have hqd := List.mem_of_find?_eq_some hq
  have hpred := List.find?_some hq
  have hk : q.1 = k := by simpa using hpred
  cases q with
  | mk a b =>
    simp only at hk hv
    subst hk
    subst hv
    exact hqd

/-- The value stored in the lookup for a given employee. -/
def entryOf (emp : Employee) : EmployeeEntry :=
  ⟨emp.id, fullNameOf (lastN emp) (firstN emp) (middleN emp)⟩

/-- Characterization of the keys an employee can put into the lookup. -/
def keyCases (emp : Employee) (k : String) : Prop :=
  (k = lastN emp ++ " " ++ firstN emp ++ " " ++ middleN emp ∧ middleN emp ≠ "") ∨
  (k = lastN emp ++ " " ++ firstN emp ∧ firstN emp ≠ "") ∨
  (k = lastN emp ∧ firstN emp = "" ∧ middleN emp = "")

theorem mem_processEmp {acc : List (String × EmployeeEntry) × List String} {emp : Employee}
    {p : String × EmployeeEntry} (h : p ∈ (processEmp acc emp).1) :
    p ∈ acc.1 ∨ (p.2 = entryOf emp ∧ keyCases emp p.1) := by
  unfold processEmp at h
  by_cases hL : lastN emp = ""
  · rw [if_pos hL] at h
    exact Or.inl h
  · rw [if_neg hL] at h
    simp only at h
    by_cases hF : firstN emp = "" <;> by_cases hM : middleN emp = ""
    · -- first = "", middle = "": surname-only key
      rw [if_neg (show ¬middleN emp ≠ "" from fun hc => hc hM),
        if_neg (show ¬firstN emp ≠ "" from fun hc => hc hF), if_pos ⟨hF, hM⟩] at h
      rcases mem_dictInsert h with h2 | h2
      · exact Or.inl h2
      · refine Or.inr ?_
        rw [h2]
        exact ⟨rfl, Or.inr (Or.inr ⟨rfl, hF, hM⟩)⟩
    · -- first = "", middle ≠ "": three-part key only
      rw [if_pos (show middleN emp ≠ "" from hM),
        if_neg (show ¬firstN emp ≠ "" from fun hc => hc hF),
        if_neg (show ¬(firstN emp = "" ∧ middleN emp = "") from fun hc => hM hc.2)] at h
      rcases mem_dictInsert h with h2 | h2
      · exact Or.inl h2
      · refine Or.inr ?_
        rw [h2]
        exact ⟨rfl, Or.inl ⟨rfl, hM⟩⟩
    · -- first ≠ "", middle = "": two-part key only
      rw [if_neg (show ¬middleN emp ≠ "" from fun hc => hc hM),
        if_pos (show firstN emp ≠ "" from hF),
        if_neg (show ¬(firstN emp = "" ∧ middleN emp = "") from fun hc => hF hc.1)] at h
      rcases mem_dictInsert h with h2 | h2
      · exact Or.inl h2
      · refine Or.inr ?_
        rw [h2]
        exact ⟨rfl, Or.inr (Or.inl ⟨rfl, hF⟩)⟩
    · -- first ≠ "", middle ≠ "": three-part then two-part keys
      rw [if_pos (show middleN emp ≠ "" from hM), if_pos (show firstN emp ≠ "" from hF),
        if_neg (show ¬(firstN emp = "" ∧ middleN emp = "") from fun hc => hF hc.1)] at h
      rcases mem_dictInsert h with h2 | h2
      · rcases mem_dictInsert h2 with h3 | h3
        · exact Or.inl h3
        · refine Or.inr ?_
          rw [h3]
          exact ⟨rfl, Or.inl ⟨rfl, hM⟩⟩
      · refine Or.inr ?_
        rw [h2]
        exact ⟨rfl, Or.inr (Or.inl ⟨rfl, hF⟩)⟩

theorem mem_foldl_processEmp {l : List Employee} :
    ∀ (acc : List (String × EmployeeEntry) × List String) (p : String × EmployeeEntry),
      p ∈ (l.foldl processEmp acc).1 →
      p ∈ acc.1 ∨ ∃ emp ∈ l, p.2 = entryOf emp ∧ keyCases emp p.1 := by
  induction l with
  | nil => intro acc p h; exact Or.inl h
  | cons e t ih =>
    intro acc p h
    rcases ih (processEmp acc e) p h with h1 | h1
    · rcases mem_processEmp h1 with h2 | h2
      · exact Or.inl h2
      · exact Or.inr ⟨e, List.mem_cons_self e t, h2⟩
    · rcases h1 with ⟨emp, hmem, hc⟩
      exact Or.inr ⟨emp, List.mem_cons_of_mem e hmem, hc⟩

theorem mem_get_employees {l : List Employee} {p : String × EmployeeEntry}
    (h : p ∈ (get_employees l).1) : ∃ emp ∈ l, p.2 = entryOf emp ∧ keyCases emp p.1 := by
  rcases mem_foldl_processEmp ([], []) p h with h1 | h1
  · simp at h1
  · exact h1

theorem data_ne_nil {s : String} (h : s ≠ "") : s.data ≠ [] := by
  intro hd
  apply h
  cases s with
  | mk l =>
    simp only [String.data] at hd
    rw [hd]

theorem mem_of_head? {l : List Char} {c : Char} (h : l.head? = some c) : c ∈ l := by
  cases l
  · simp at h
  · simp only [List.head?_cons, Option.some.injEq] at h
    simp [h]

theorem mem_of_getLast? {l : List Char} {c : Char} (h : l.getLast? = some c) : c ∈ l := by
  rcases List.mem_getLast?_eq_getLast (by simp [h] : c ∈ l.getLast?) with ⟨hne, hc⟩
  rw [hc]
  exact List.getLast_mem hne

theorem stripL_eq_self {l : List Char} (h : ∀ c, l.head? = some c → isPySpace c = false) :
    stripL l = l := by
  cases l with
  | nil => rfl
  | cons c t =>
    unfold stripL
    rw [List.dropWhile_cons, if_neg (by simp [h c rfl])]

theorem stripR_eq_self {l : List Char} (h : ∀ c, l.getLast? = some c → isPySpace c = false) :
    stripR l = l := by
  unfold stripR
  have : l.reverse.dropWhile isPySpace = l.reverse := by
    cases hr : l.reverse with
    | nil => rfl
    | cons c t =>
      rw [List.dropWhile_cons, if_neg ?_]
      have hc : l.getLast? = some c := by
        rw [← List.head?_reverse, hr]
        rfl
      simp [h c hc]
  rw [this, List.reverse_reverse]

/-- Python `str.strip()` is the identity on a string whose first and last
characters are not whitespace. -/
theorem pyStrip_eq_self {s : String}
    (h1 : ∀ c, s.data.head? = some c → isPySpace c = false)
    (h2 : ∀ c, s.data.getLast? = some c → isPySpace c = false) : pyStrip s = s := by
  unfold pyStrip
  rw [stripL_eq_self h1, stripR_eq_self h2]

theorem noWS_head {s : String} (hs : noWS s) :
    ∀ c, s.data.head? = some c → isPySpace c = false :=
  fun c hc => hs c (mem_of_head? hc)

theorem noWS_getLast {s : String} (hs : noWS s) :
    ∀ c, s.data.getLast? = some c → isPySpace c = false :=
  fun c hc => hs c (mem_of_getLast? hc)

/-- Python `str.strip()` leaves `a ++ sep ++ b` alone when `a` and `b` are nonempty
and free of whitespace. -/
theorem pyStrip_sep {a b sep : String} (ha : noWS a) (ha0 : a ≠ "") (hb : noWS b)
    (hb0 : b ≠ "") : pyStrip (a ++ sep ++ b) = a ++ sep ++ b := by
  apply pyStrip_eq_self
  · intro c hc
    have : (a ++ sep ++ b).data.head? = a.data.head? := by
      rw [str_data_append, str_data_append, List.append_assoc]
      cases hd : a.data with
      | nil => exact absurd hd (data_ne_nil ha0)
      | cons x t => rfl
    rw [this] at hc
    exact noWS_head ha c hc
  · intro c hc
    have : (a ++ sep ++ b).data.getLast? = b.data.getLast? := by
      rw [str_data_append, str_data_append]
      exact List.getLast?_append_of_ne_nil _ (data_ne_nil hb0)
    rw [this] at hc
    exact noWS_getLast hb c hc

theorem noWS_count_space {s : String} (h : noWS s) : s.data.count ' ' = 0 :=
  List.count_eq_zero.2 (noWS_no_space h)

theorem count_space_two_part {a b : String} (ha : noWS a) (hb : noWS b) :
    (a ++ " " ++ b).data.count ' ' = 1 := by
  rw [str_data_append, str_data_append]
  rw [List.count_append, List.count_append, noWS_count_space ha, noWS_count_space hb]
  rfl

theorem count_space_three_part {a b c : String} (ha : noWS a) (hb : noWS b) (hc : noWS c) :
    (a ++ " " ++ b ++ " " ++ c).data.count ' ' = 2 := by
  rw [str_data_append, str_data_append, str_data_append, str_data_append]
  rw [List.count_append, List.count_append, List.count_append, List.count_append,
    noWS_count_space ha, noWS_count_space hb, noWS_count_space hc]
  rfl

/-! Substring lemmas for Python's `in` on the embedded messages. -/

theorem listStartsWith_nil (h : List Char) : listStartsWith h [] = true := by
  cases h <;> rfl

theorem listStartsWith_refl (n : List Char) : listStartsWith n n = true := by
  induction n with
  | nil => rfl
  | cons c t ih => simp [listStartsWith, ih]

theorem listStartsWith_append_self (n b : List Char) : listStartsWith (n ++ b) n = true := by
  induction n with
  | nil => exact listStartsWith_nil _
  | cons c t ih => simp [listStartsWith, ih]

theorem listStartsWith_append_right {h n : List Char} (y : List Char)
    (hs : listStartsWith h n = true) : listStartsWith (h ++ y) n = true := by
  induction n generalizing h with
  | nil => exact listStartsWith_nil _
  | cons c t ih =>
    cases h with
    | nil => simp [listStartsWith] at hs
    | cons d u =>
      simp only [listStartsWith, Bool.and_eq_true] at hs ⊢
      exact ⟨hs.1, ih hs.2⟩

theorem listHasSub_of_startsWith {h n : List Char} (hs : listStartsWith h n = true) :
    listHasSub h n = true := by
  cases h with
  | nil =>
    cases n with
    | nil => rfl
    | cons c t => simp [listStartsWith] at hs
  | cons c t => simp [listHasSub, hs]

theorem listHasSub_suffix (x n : List Char) : listHasSub (x ++ n) n = true := by
  induction x with
  | nil => exact listHasSub_of_startsWith (listStartsWith_refl n)
  | cons c t ih => simp [listHasSub, ih]

theorem listHasSub_append_right {h n : List Char} (y : List Char)
    (hs : listHasSub h n = true) : listHasSub (h ++ y) n = true := by
  induction h with
  | nil =>
    cases n with
    | nil => exact listHasSub_of_startsWith (listStartsWith_nil _)
    | cons c t => simp [listHasSub] at hs
  | cons c t ih =>
    simp only [listHasSub, Bool.or_eq_true] at hs ⊢
    rcases hs with hs | hs
    · exact Or.inl (listStartsWith_append_right y hs)
    · exact Or.inr (ih hs)

/-- A trailing block of a string is found by Python's `in`. -/
theorem strHasSub_suffix (p t : String) : strHasSub (p ++ t) t = true := by
  unfold strHasSub
  rw [str_data_append]
  exact listHasSub_suffix p.data t.data

/-- A block followed by more text is found by Python's `in`. -/
theorem strHasSub_suffix_append (p t y : String) : strHasSub (p ++ t ++ y) t = true := by
  unfold strHasSub
  rw [str_data_append, str_data_append]
  exact listHasSub_append_right y.data (listHasSub_suffix p.data t.data)

/-- Python's `in` is preserved by appending on the right. -/
theorem strHasSub_append_right {s t : String} (y : String) (h : strHasSub s t = true) :
    strHasSub (s ++ y) t = true := by
  unfold strHasSub at h ⊢
  rw [str_data_append]
  exact listHasSub_append_right y.data h

theorem append_ne_empty_left {a : String} (b : String) (h : a ≠ "") : a ++ b ≠ "" := by
  intro hc
  apply data_ne_nil h
  have := congrArg String.data hc
  rw [str_data_append] at this
  exact List.append_eq_nil.1 this |>.1

theorem headCh_append {a : String} (b : String) (h : a ≠ "") :
    (a ++ b).data.head? = a.data.head? := by
  rw [str_data_append]
  cases hd : a.data with
  | nil => exact absurd hd (data_ne_nil h)
  | cons c t => rfl

theorem dictInsert_nil {α : Type} (k : String) (v : α) :
    dictInsert ([] : List (String × α)) k v = [(k, v)] := by
  simp [dictInsert]

theorem dictInsert_singleton_ne {α : Type} {k1 k2 : String} (h : k1 ≠ k2) (v1 v2 : α) :
    dictInsert [(k1, v1)] k2 v2 = [(k1, v1), (k2, v2)] := by
  simp [dictInsert, h]

theorem strptimeDM_fields {f : String → Option Nat} {s : String} {dt : DateTime}
    (h : strptimeDM f s = some dt) :
    dt.hour = 0 ∧ dt.minute = 0 ∧ dt.second = 0 ∧ dt.micro = 0 := by
  unfold strptimeDM at h
  split at h
  · rcases Option.bind_eq_some.1 h with ⟨d, hd, h2⟩
    rcases Option.bind_eq_some.1 h2 with ⟨m, hm, h3⟩
    rcases Option.bind_eq_some.1 h3 with ⟨y, hy, h4⟩
    split at h4
    · rw [Option.some_inj] at h4
      subst h4
      exact ⟨rfl, rfl, rfl, rfl⟩
    · cases h4
  · cases h

theorem toUtc_micro (tz : Tz) (dt : DateTime) : (toUtc tz dt).micro = dt.micro := rfl

theorem applyEndOfDay_micro (b : Bool) (dt : DateTime) :
    (applyEndOfDay b dt).micro = dt.micro := by
  cases b <;> rfl

/-! ## Claim theorems -/

/-- Claim C1: the employee lookup registers, for every employee with a
non-empty (stripped) surname, exactly the applicable keys: the three-part
key `"surname firstname middlename"` only if the middle name is non-empty,
the two-part key `"surname firstname"` if the first name is non-empty, and
the surname alone only if both first and middle name are empty.  An
employee with an empty or whitespace-only surname contributes nothing to
the lookup and produces a non-fatal warning. -/
theorem claim_C1 (emp : Employee) (acc : List (String × EmployeeEntry) × List String) :
    (processEmp acc emp =
      if lastN emp = "" then (acc.1, acc.2 ++ [noSurnameWarning emp])
      else ((processEmp acc emp).1, acc.2)) ∧
    ((processEmp ([], []) emp).1.map Prod.fst =
      if lastN emp = "" then []
      else
        (if middleN emp ≠ "" then [lastN emp ++ " " ++ firstN emp ++ " " ++ middleN emp]
          else []) ++
        (if firstN emp ≠ "" then [lastN emp ++ " " ++ firstN emp] else []) ++
        (if firstN emp = "" ∧ middleN emp = "" then [lastN emp] else [])) := by
  constructor
  · by_cases hL : lastN emp = ""
    · rw [if_pos hL]
      unfold processEmp
      rw [if_pos hL]
    · rw [if_neg hL]
      have hsnd : (processEmp acc emp).2 = acc.2 := by
        unfold processEmp
        rw [if_neg hL]
      exact Prod.ext rfl hsnd
  · by_cases hL : lastN emp = ""
    · rw [if_pos hL]
      unfold processEmp
      rw [if_pos hL]
      rfl
    · rw [if_neg hL]
      unfold processEmp
      rw [if_neg hL]
      simp only
      by_cases hF : firstN emp = "" <;> by_cases hM : middleN emp = ""
      · rw [if_neg (show ¬middleN emp ≠ "" from fun hc => hc hM),
          if_neg (show ¬firstN emp ≠ "" from fun hc => hc hF), if_pos ⟨hF, hM⟩,
          if_neg (show ¬middleN emp ≠ "" from fun hc => hc hM),
          if_neg (show ¬firstN emp ≠ "" from fun hc => hc hF), if_pos ⟨hF, hM⟩]
        rw [dictInsert_nil]
        rfl
      · rw [if_pos (show middleN emp ≠ "" from hM),
          if_neg (show ¬firstN emp ≠ "" from fun hc => hc hF),
          if_neg (show ¬(firstN emp = "" ∧ middleN emp = "") from fun hc => hM hc.2),
          if_pos (show middleN emp ≠ "" from hM),
          if_neg (show ¬firstN emp ≠ "" from fun hc => hc hF),
          if_neg (show ¬(firstN emp = "" ∧ middleN emp = "") from fun hc => hM hc.2)]
        rw [dictInsert_nil]
        rfl
      · rw [if_neg (show ¬middleN emp ≠ "" from fun hc => hc hM),
          if_pos (show firstN emp ≠ "" from hF),
          if_neg (show ¬(firstN emp = "" ∧ middleN emp = "") from fun hc => hF hc.1),
          if_neg (show ¬middleN emp ≠ "" from fun hc => hc hM),
          if_pos (show firstN emp ≠ "" from hF),
          if_neg (show ¬(firstN emp = "" ∧ middleN emp = "") from fun hc => hF hc.1)]
        rw [dictInsert_nil]
        rfl
      · have hne : lastN emp ++ " " ++ firstN emp ++ " " ++ middleN emp ≠
            lastN emp ++ " " ++ firstN emp :=
          (append_sep_append_ne (lastN emp ++ " " ++ firstN emp) " " (middleN emp)
            (by decide)).symm
        rw [if_pos (show middleN emp ≠ "" from hM), if_pos (show firstN emp ≠ "" from hF),
          if_neg (show ¬(firstN emp = "" ∧ middleN emp = "") from fun hc => hF hc.1),
          if_pos (show middleN emp ≠ "" from hM), if_pos (show firstN emp ≠ "" from hF),
          if_neg (show ¬(firstN emp = "" ∧ middleN emp = "") from fun hc => hF hc.1)]
        rw [dictInsert_nil, dictInsert_singleton_ne hne]
        rfl

/-- Claim C2 counterexample: the employee with `lastName` `"Иванов Петр"`
and no first or middle name is registered under a surname-only key, yet
the CSV row carrying surname `"Иванов"` plus first name `"Петр"` resolves
it — so a surname+first row *can* match a surname-only-registered
employee when a surname contains a space. -/
theorem claim_C2_counterexample :
    firstN ⟨"1", some "Иванов Петр", none, none⟩ = "" ∧
    middleN ⟨"1", some "Иванов Петр", none, none⟩ = "" ∧
    dictGet (get_employees [⟨"1", some "Иванов Петр", none, none⟩]).1
      (rowFullName "Иванов" "Петр" "") = some ⟨"1", "Иванов Петр"⟩ := by
  decide

/-- Claim C2 (amended): provided the row's surname and first-name fields
are non-empty and contain no whitespace characters, and every employee's
stripped surname contains no whitespace character, then a surname-only row
resolves only against an employee with no first or middle name, a
surname+first row never resolves an employee registered under a
surname-only key, and the row-side keys are the exact single-space-joined
strings (matching is exact string equality). -/
theorem claim_C2_amended (emps : List Employee) (S F : String)
    (hS : noWS S) (hS0 : S ≠ "") (hF : noWS F) (hF0 : F ≠ "")
    (hEmps : ∀ emp ∈ emps, noWS (lastN emp)) :
    (∀ v, dictGet (get_employees emps).1 (rowFullName S "" "") = some v →
      ∃ emp ∈ emps, v.id = emp.id ∧ firstN emp = "" ∧ middleN emp = "") ∧
    (∀ v, dictGet (get_employees emps).1 (rowFullName S F "") = some v →
      ∃ emp ∈ emps, v.id = emp.id ∧ ¬(firstN emp = "" ∧ middleN emp = "")) ∧
    rowFullName S "" "" = S ∧ rowFullName S F "" = S ++ " " ++ F := by
  have hkey1 : rowFullName S "" "" = S := by
    unfold rowFullName
    rw [if_neg (show ¬("" : String) ≠ "" from fun hc => hc rfl),
      if_neg (show ¬("" : String) ≠ "" from fun hc => hc rfl)]
  have hkey2 : rowFullName S F "" = S ++ " " ++ F := by
    unfold rowFullName
    rw [if_neg (show ¬("" : String) ≠ "" from fun hc => hc rfl), if_pos hF0]
    exact pyStrip_sep hS hS0 hF hF0
  refine ⟨?_, ?_, hkey1, hkey2⟩
  · intro v hv
    rw [hkey1] at hv
    rcases mem_get_employees (dictGet_mem hv) with ⟨emp, hin, hval, hkc⟩
    simp only at hval hkc
    rcases hkc with ⟨hk, _⟩ | ⟨hk, _⟩ | ⟨hk, hF', hM'⟩
    · exfalso
      apply noWS_no_space hS
      rw [hk]
      exact space_mem_sep (lastN emp ++ " " ++ firstN emp) (middleN emp)
    · exfalso
      apply noWS_no_space hS
      rw [hk]
      exact space_mem_sep (lastN emp) (firstN emp)
    · exact ⟨emp, hin, by rw [hval]; rfl, hF', hM'⟩
  · intro v hv
    rw [hkey2] at hv
    rcases mem_get_employees (dictGet_mem hv) with ⟨emp, hin, hval, hkc⟩
    simp only at hval hkc
    rcases hkc with ⟨hk, hM'⟩ | ⟨hk, hF'⟩ | ⟨hk, hF', hM'⟩
    · exact ⟨emp, hin, by rw [hval]; rfl, fun hc => hM' hc.2⟩
    · exact ⟨emp, hin, by rw [hval]; rfl, fun hc => hF' hc.1⟩
    · exfalso
      apply noWS_no_space (hEmps emp hin)
      rw [← hk]
      exact space_mem_sep S F

/-- Claim C2 witness: the amended theorem's hypotheses are satisfiable on a
concrete employee list and row. -/
theorem claim_C2_witness :
    rowFullName "Иванов" "" "" = "Иванов" ∧
    rowFullName "Иванов" "Пётр" "" = "Иванов" ++ " " ++ "Пётр" :=
  (claim_C2_amended [⟨"1", some "Сидорова", none, none⟩, ⟨"2", some "Иванов", some "Пётр", none⟩]
    "Иванов" "Пётр" (by decide) (by decide) (by decide) (by decide) (by decide)).2.2

/-- Claim C3 counterexample: whitespace-only input yields `None` with *no*
warning — the claim asserts that empty/whitespace-only input also produces
a non-fatal warning, but `parse_date` returns before the warning is
reachable. -/
theorem claim_C3_counterexample : parse_date " " moscowTz false = (none, []) := by
  decide

/-- Claim C3 (amended): `parse_date` tries `%d/%m/%y` then `%d/%m/%Y`, in
that order, and the first successful parse wins; a start-boundary result
keeps local time 00:00:00 and an end-boundary result has local time
23:59:59 with sub-second precision zeroed; the naive local datetime is
converted to UTC by the timezone offset and formatted as ISO-8601 with
fractional seconds; whitespace-only input yields null *silently*, while
non-empty input matching neither format yields null with a non-fatal
warning naming the offending string. -/
theorem claim_C3_amended (s : String) (tz : Tz) (b : Bool) :
    (parse_date s tz b =
      if pyStrip s = "" then (none, [])
      else
        match strptimeDMY2 (pyStrip s), strptimeDMY4 (pyStrip s) with
        | some dt, _ => (some (fmtUtcIso (toUtc tz (applyEndOfDay b dt))), [])
        | none, some dt => (some (fmtUtcIso (toUtc tz (applyEndOfDay b dt))), [])
        | none, none => (none, [badDateWarning s])) ∧
    (∀ r ∈ [strptimeDMY2 (pyStrip s), strptimeDMY4 (pyStrip s)], ∀ dt ∈ r,
      applyEndOfDay false dt = ⟨dt.year, dt.month, dt.day, 0, 0, 0, 0⟩ ∧
      applyEndOfDay true dt = ⟨dt.year, dt.month, dt.day, 23, 59, 59, 0⟩ ∧
      (toUtc tz (applyEndOfDay b dt)).micro = 0) := by
  constructor
  · by_cases he : pyStrip s = ""
    · rw [if_pos he]
      unfold parse_date
      rw [if_pos he]
    · rw [if_neg he]
      unfold parse_date
      rw [if_neg he]
      rcases h2 : strptimeDMY2 (pyStrip s) with _ | dt2 <;>
        rcases h4 : strptimeDMY4 (pyStrip s) with _ | dt4 <;> simp [h2, h4]
  · intro r hr dt hdt
    have hsome : r = some dt := hdt
    have hfields : dt.hour = 0 ∧ dt.minute = 0 ∧ dt.second = 0 ∧ dt.micro = 0 := by
      rcases List.mem_cons.1 hr with h | h
      · exact strptimeDM_fields (f := matchYear2) (h ▸ hsome)
      · rcases List.mem_cons.1 h with h' | h'
        · exact strptimeDM_fields (f := matchYear4) (h' ▸ hsome)
        · simp at h'
    rcases hfields with ⟨hh, hm, hs, hmic⟩
    refine ⟨?_, ?_, ?_⟩
    · cases dt
      simp only at hh hm hs hmic
      subst hh
      subst hm
      subst hs
      subst hmic
      rfl
    · cases dt
      simp only at hh hm hs hmic
      subst hh
      subst hm
      subst hs
      subst hmic
      rfl
    · rw [toUtc_micro, applyEndOfDay_micro]
      exact hmic

/-- Claim C3 witness: the amended theorem applied to a concrete parse. -/
theorem claim_C3_witness :
    parse_date "02/03/25" moscowTz true = (some "2025-03-02T20:59:59.000000Z", []) ∧
    applyEndOfDay true ⟨2025, 3, 2, 0, 0, 0, 0⟩ = ⟨2025, 3, 2, 23, 59, 59, 0⟩ := by
  have h := claim_C3_amended "02/03/25" moscowTz true
  constructor
  · rw [h.1]
    decide
  · exact (h.2 (strptimeDMY2 (pyStrip "02/03/25")) (by decide)
      ⟨2025, 3, 2, 0, 0, 0, 0⟩ (by decide)).2.1

/-- Claim C4: with timezone Europe/Moscow (+3), `"01/07/25"` as a start
boundary is exactly `2025-06-30T21:00:00.000000Z` and `"14/07/25"` as an
end boundary is exactly `2025-07-14T20:59:59.000000Z`; the CSV row
`Сидорова;;;Отпуск;01/07/25;14/07/25` against the employee list containing
only `{lastName:"Сидорова"}` resolves that employee and leads to a create
call (HTTP 200 → success outcome). -/
theorem claim_C4 :
    (parse_date "01/07/25" moscowTz false).1 = some "2025-06-30T21:00:00.000000Z" ∧
    (parse_date "14/07/25" moscowTz true).1 = some "2025-07-14T20:59:59.000000Z" ∧
    processRow (get_employees [⟨"emp-1", some "Сидорова", none, none⟩]).1
      [("Отпуск", "type-1")] moscowTz "uuid-1" (fun _ => .resp 200 "")
      (zipRow ["Фамилия", "Имя", "Отчество", "Тип", "Дата1", "Дата2"]
        (splitOnChar "Сидорова;;;Отпуск;01/07/25;14/07/25" ';')) =
      ⟨some ⟨"uuid-1", "emp-1", "type-1", "2025-06-30T21:00:00.000000Z",
        "2025-07-14T20:59:59.000000Z", true, true,
        "Запланировано автоматически через Streamlit"⟩, [],
        "Событие создано для сотрудника: Сидорова"⟩ := by
  decide

/-- Claim C5: HTTP 200/201 yields success; HTTP 400 whose body mentions
`Employee ... is fired` yields the specific "employee terminated" skip
outcome, distinct from the generic error and from the success message; any
other response and a transport exception yield a generic failure whose
message includes the remote status and body, or the exception text; the
request body carries the generated event id, `allDay=true`,
`confirmed=true` and the fixed automation comment. -/
theorem claim_C5 (status : Nat)
    (text e event_id employee_id employee_name type_id s_d e_d : String) :
    ((create_schedule (fun _ => .resp status text) event_id employee_id employee_name
        type_id s_d e_d).1 =
      ⟨event_id, employee_id, type_id, s_d, e_d, true, true,
        "Запланировано автоматически через Streamlit"⟩) ∧
    ((create_schedule (fun _ => .resp status text) event_id employee_id employee_name
        type_id s_d e_d).2 =
      if status = 200 ∨ status = 201 then
        (true, "Событие создано для сотрудника: " ++ employee_name)
      else if status = 400 ∧ strHasSub text "Employee" ∧ strHasSub text "is fired" then
        (false, "⚠️ Пропущено: Сотрудник " ++ employee_name ++ " уволен")
      else
        (false, "Ошибка создания события для " ++ employee_name ++ ": " ++
          toString status ++ " — " ++ text)) ∧
    strHasSub ("Ошибка создания события для " ++ employee_name ++ ": " ++
      toString status ++ " — " ++ text) (toString status) = true ∧
    strHasSub ("Ошибка создания события для " ++ employee_name ++ ": " ++
      toString status ++ " — " ++ text) text = true ∧
    ((create_schedule (fun _ => .exn e) event_id employee_id employee_name
        type_id s_d e_d).2 =
      (false, "Не удалось создать событие для " ++ employee_name ++ ": " ++ e)) ∧
    strHasSub ("Не удалось создать событие для " ++ employee_name ++ ": " ++ e) e = true ∧
    ("⚠️ Пропущено: Сотрудник " ++ employee_name ++ " уволен" ≠
      "Ошибка создания события для " ++ employee_name ++ ": " ++
        toString status ++ " — " ++ text) ∧
    ("⚠️ Пропущено: Сотрудник " ++ employee_name ++ " уволен" ≠
      "Событие создано для сотрудника: " ++ employee_name) := by
  have hfired : ("⚠️ Пропущено: Сотрудник " ++ employee_name ++ " уволен").data.head? =
      some '⚠' := by
    rw [headCh_append _ (append_ne_empty_left employee_name (by decide)),
      headCh_append _ (by decide)]
    decide
  have h1 := append_ne_empty_left employee_name
    (show ("Ошибка создания события для " : String) ≠ "" from by decide)
  have h2 := append_ne_empty_left ": " h1
  have h3 := append_ne_empty_left (toString status) h2
  have h4 := append_ne_empty_left " — " h3
  have hgen : ("Ошибка создания события для " ++ employee_name ++ ": " ++
      toString status ++ " — " ++ text).data.head? = some 'О' := by
    rw [headCh_append _ h4, headCh_append _ h3, headCh_append _ h2, headCh_append _ h1,
      headCh_append _ (by decide)]
    decide
  have hsucc : ("Событие создано для сотрудника: " ++ employee_name).data.head? =
      some 'С' := by
    rw [headCh_append _ (by decide)]
    decide
  refine ⟨rfl, rfl, ?_, ?_, rfl, ?_, ?_, ?_⟩
  · exact strHasSub_append_right text (strHasSub_append_right " — "
      (strHasSub_suffix ("Ошибка создания события для " ++ employee_name ++ ": ")
        (toString status)))
  · exact strHasSub_suffix ("Ошибка создания события для " ++ employee_name ++ ": " ++
      toString status ++ " — ") text
  · exact strHasSub_suffix ("Не удалось создать событие для " ++ employee_name ++ ": ") e
  · intro heq
    have hh := congrArg (fun u : String => u.data.head?) heq
    simp only at hh
    rw [hfired, hgen] at hh
    exact absurd hh (by decide)
  · intro heq
    have hh := congrArg (fun u : String => u.data.head?) heq
    simp only at hh
    rw [hfired, hsucc] at hh
    exact absurd hh (by decide)

/-- Claim C6: a transport exception during a create or delete call is
caught and converted into a failure result (`success = false`, same
message channel) — but the rendering classifies by message content
markers (`"Ошибка"` / `"⚠️"`), and the exception messages
(`"Не удалось ..."`) contain neither marker, so these outcomes are
rendered with `st.success`, not as errors, contradicting the claim. -/
theorem claim_C6_bug :
    (create_schedule (fun _ => .exn "Connection timeout") "uuid-1" "emp-1" "Иванов Иван"
        "type-1" "s" "e").2 =
      (false, "Не удалось создать событие для Иванов Иван: Connection timeout") ∧
    renderedAsError "Не удалось создать событие для Иванов Иван: Connection timeout" =
      false ∧
    delete_calendar_event (.exn "Connection timeout") "ev-1" =
      (false, "Не удалось удалить событие ev-1: Connection timeout") ∧
    renderedAsError "Не удалось удалить событие ev-1: Connection timeout" = false := by
  decide

/-- Claim C7 counterexample: with a successful employee fetch but zero
employees at the selected location, the delete action emits the
informational zero-count message *and then an error-level message*
(`st.error`), so the abort is not error-free as the claim states; no
delete calls are issued. -/
theorem claim_C7_counterexample :
    deleteEventsAction (.ok [⟨"emp-1", ["loc-2"]⟩]) "loc-1" (.ok [])
        (fun _ => .resp 200 "") =
      ([(.info, "Найдено 0 сотрудников в выбранной локации"),
        (.error, "Не удалось получить сотрудников для указанной локации.")], []) ∧
    MsgLevel.error ∈ (deleteEventsAction (.ok [⟨"emp-1", ["loc-2"]⟩]) "loc-1" (.ok [])
      (fun _ => .resp 200 "")).1.map Prod.fst := by
  decide

/-- Claim C7 (amended): if zero employees match the selected location, the
delete action aborts having issued zero remote delete calls; it shows the
informational message reporting zero employees found, followed by an
error-level message — not an informational-only abort. -/
theorem claim_C7_amended (emps : List EmployeeLoc) (location_id : String)
    (evFetch : EventsFetch) (deleteResponder : String → RemoteResult)
    (h : emps.filter (fun emp => emp.locationIds.contains location_id) = []) :
    deleteEventsAction (.ok emps) location_id evFetch deleteResponder =
      ([(.info, "Найдено 0 сотрудников в выбранной локации"),
        (.error, "Не удалось получить сотрудников для указанной локации.")], []) := by
  have hfil : (emps.filter (fun emp => emp.locationIds.contains location_id)).map
      (fun x => x.id) = [] := by
    rw [h]
    rfl
  unfold deleteEventsAction get_employees_by_location
  simp only [hfil]
  rfl

/-- Claim C7 witness: the amended theorem applied to a concrete fetch. -/
theorem claim_C7_witness :
    deleteEventsAction (.ok [⟨"emp-9", ["loc-5"]⟩, ⟨"emp-10", []⟩]) "loc-7" (.ok ["ev-1"])
        (fun _ => .resp 204 "") =
      ([(.info, "Найдено 0 сотрудников в выбранной локации"),
        (.error, "Не удалось получить сотрудников для указанной локации.")], []) :=
  claim_C7_amended [⟨"emp-9", ["loc-5"]⟩, ⟨"emp-10", []⟩] "loc-7" (.ok ["ev-1"])
    (fun _ => .resp 204 "") (by decide)

/-- Claim C8 counterexample: cell values are *not* stripped by the
normalizer — `" Иванов "` keeps its surrounding whitespace (only `None`
is coalesced to `""`); furthermore a header whose BOM precedes whitespace
keeps that whitespace, since the code strips whitespace before BOMs. -/
theorem claim_C8_counterexample :
    normalize_row [(some "Фамилия", some " Иванов ")] = [("Фамилия", " Иванов ")] ∧
    (" Иванов " : String) ≠ "Иванов" ∧ pyStrip " Иванов " = "Иванов" ∧
    normalizeField (some "﻿ Имя") = " Имя" := by
  decide

/-- Claim C8 (amended): the normalizer strips surrounding whitespace and
then leading byte-order marks from every header name, normalizes absent
(`None`) keys and values to the empty string, and passes cell values
through otherwise unchanged (no stripping of values). -/
theorem claim_C8_amended (row : List (Option String × Option String)) (k v : String) :
    (normalize_row row).map Prod.snd = row.map (fun kv => kv.2.getD "") ∧
    (normalize_row row).map Prod.fst =
      row.map (fun kv => pyLstripBOM (pyStrip (kv.1.getD ""))) ∧
    normalize_row [(some k, none)] = [(pyLstripBOM (pyStrip k), "")] ∧
    normalize_row [(none, some v)] = [("", v)] := by
  refine ⟨?_, ?_, rfl, rfl⟩
  · simp [normalize_row]
  · simp [normalize_row, normalizeField]

/-- Claim C9: delimiter detection tries `;` then `,` and accepts the first
delimiter under which all four mandatory columns appear in the normalized
header; if neither works, the create action aborts with the single
validation error naming the mandatory columns, before any remote
reference fetch (empty remote trace). -/
theorem claim_C9 (text : String) (typesDict : List (String × String))
    (empList : List Employee) (tz : Tz) (eventIds : List String)
    (responder : CreateBody → RemoteResult) :
    (hasRequiredColumns (headerFieldsWith text ';') = true →
      detectDelimiter text = some ';') ∧
    (hasRequiredColumns (headerFieldsWith text ';') = false →
      hasRequiredColumns (headerFieldsWith text ',') = true →
      detectDelimiter text = some ',') ∧
    (detectDelimiter text = none →
      createAction text typesDict empList tz eventIds responder =
        ([missingColumnsError], [])) ∧
    required_columns.all (fun c => strHasSub missingColumnsError c) = true := by
  refine ⟨?_, ?_, ?_, by decide⟩
  · intro h
    unfold detectDelimiter
    rw [if_pos h]
  · intro h1 h2
    unfold detectDelimiter
    rw [if_neg (by simp [h1]), if_pos h2]
  · intro h
    unfold createAction
    rw [h]

/-- Claim C9 witness: detection and the early abort on concrete files. -/
theorem claim_C9_witness :
    detectDelimiter "Фамилия;Тип;Дата1;Дата2\nИванов;Отпуск;01/07/25;02/07/25" = some ';' ∧
    detectDelimiter "Фамилия,Тип,Дата1,Дата2" = some ',' ∧
    createAction "Surname;Type\nx;y" [] [] moscowTz [] (fun _ => .resp 200 "") =
      ([missingColumnsError], []) := by
  refine ⟨?_, ?_, ?_⟩
  · exact (claim_C9 _ [] [] moscowTz [] (fun _ => .resp 200 "")).1 (by decide)
  · exact (claim_C9 _ [] [] moscowTz [] (fun _ => .resp 200 "")).2.1 (by decide) (by decide)
  · exact (claim_C9 _ [] [] moscowTz [] (fun _ => .resp 200 "")).2.2.1 (by decide)

/-- Claim C10 counterexample: for the employee `{lastName:"X",
middleName:"Y"}` (empty first name) the registered key is `"X  Y"`, and
the surname-only row whose surname field is literally `"X  Y"` *does*
resolve that employee — refuting the claim's assertion that a surname-only
row never does. -/
theorem claim_C10_counterexample :
    middleN ⟨"2", some "X", none, some "Y"⟩ ≠ "" ∧
    firstN ⟨"2", some "X", none, some "Y"⟩ = "" ∧
    dictGet (get_employees [⟨"2", some "X", none, some "Y"⟩]).1
      (rowFullName "X  Y" "" "") = some ⟨"2", "X  Y"⟩ := by
  decide

/-- Claim C10 (amended): for an employee with an empty first name and a
non-empty middle name, the only registered key is
`"lastName<space><space>middleName"` (two consecutive spaces); a row with
the same surname and middle name and an empty first name builds the
identical key and resolves the employee; and — provided the name fields
contain no whitespace characters — a surname-only row and a surname+first
row build different keys and do not resolve it. -/
theorem claim_C10_amended (emp : Employee) (S S' F' : String)
    (hL0 : lastN emp ≠ "") (hF : firstN emp = "") (hM0 : middleN emp ≠ "")
    (hLw : noWS (lastN emp)) (hMw : noWS (middleN emp))
    (hS : noWS S) (hS'w : noWS S') (hS'0 : S' ≠ "") (hF'w : noWS F') (hF'0 : F' ≠ "") :
    ((processEmp ([], []) emp).1.map Prod.fst =
      [lastN emp ++ " " ++ firstN emp ++ " " ++ middleN emp]) ∧
    (lastN emp ++ " " ++ firstN emp ++ " " ++ middleN emp =
      lastN emp ++ " " ++ " " ++ middleN emp) ∧
    (rowFullName (lastN emp) "" (middleN emp) =
      lastN emp ++ " " ++ firstN emp ++ " " ++ middleN emp) ∧
    (dictGet (get_employees [emp]).1 (rowFullName (lastN emp) "" (middleN emp)) =
      some (entryOf emp)) ∧
    (rowFullName S "" "" ≠ lastN emp ++ " " ++ firstN emp ++ " " ++ middleN emp) ∧
    (dictGet (get_employees [emp]).1 (rowFullName S "" "") = none) ∧
    (rowFullName S' F' "" ≠ lastN emp ++ " " ++ firstN emp ++ " " ++ middleN emp) ∧
    (dictGet (get_employees [emp]).1 (rowFullName S' F' "") = none) := by
  have hFw : noWS (firstN emp) := by
    rw [hF]
    intro c hc
    cases hc
  have hkeys : (processEmp ([], []) emp).1 =
      [(lastN emp ++ " " ++ firstN emp ++ " " ++ middleN emp, entryOf emp)] := by
    unfold processEmp
    rw [if_neg hL0]
    simp only
    rw [if_pos (show middleN emp ≠ "" from hM0),
      if_neg (show ¬firstN emp ≠ "" from fun hc => hc hF),
      if_neg (show ¬(firstN emp = "" ∧ middleN emp = "") from fun hc => hM0 hc.2)]
    rw [dictInsert_nil]
    rfl
  have hdict : (get_employees [emp]).1 =
      [(lastN emp ++ " " ++ firstN emp ++ " " ++ middleN emp, entryOf emp)] := hkeys
  have htwo : lastN emp ++ " " ++ firstN emp ++ " " ++ middleN emp =
      lastN emp ++ " " ++ " " ++ middleN emp := by
    rw [hF, String.append_empty]
  have hrowM : rowFullName (lastN emp) "" (middleN emp) =
      lastN emp ++ " " ++ firstN emp ++ " " ++ middleN emp := by
    unfold rowFullName
    rw [if_pos (show middleN emp ≠ "" from hM0), hF, String.append_empty,
      String.append_assoc (lastN emp) " " " "]
    exact pyStrip_sep hLw hL0 hMw hM0
  have hrowS : rowFullName S "" "" = S := by
    unfold rowFullName
    rw [if_neg (show ¬("" : String) ≠ "" from fun hc => hc rfl),
      if_neg (show ¬("" : String) ≠ "" from fun hc => hc rfl)]
  have hrowSF : rowFullName S' F' "" = S' ++ " " ++ F' := by
    unfold rowFullName
    rw [if_neg (show ¬("" : String) ≠ "" from fun hc => hc rfl), if_pos hF'0]
    exact pyStrip_sep hS'w hS'0 hF'w hF'0
  have hne5 : rowFullName S "" "" ≠
      lastN emp ++ " " ++ firstN emp ++ " " ++ middleN emp := by
    rw [hrowS]
    intro heq
    apply noWS_no_space hS
    rw [heq]
    exact space_mem_sep (lastN emp ++ " " ++ firstN emp) (middleN emp)
  have hne7 : rowFullName S' F' "" ≠
      lastN emp ++ " " ++ firstN emp ++ " " ++ middleN emp := by
    rw [hrowSF]
    intro heq
    have hc := congrArg (fun u : String => u.data.count ' ') heq
    simp only at hc
    rw [count_space_two_part hS'w hF'w, count_space_three_part hLw hFw hMw] at hc
    exact absurd hc (by decide)
  refine ⟨by rw [hkeys]; rfl, htwo, hrowM, ?_, hne5, ?_, hne7, ?_⟩
  · rw [hrowM, hdict]
    unfold dictGet
    rw [List.find?_cons_of_pos _ (by simp)]
    rfl
  · rw [hrowS] at hne5 ⊢
    rw [hdict]
    unfold dictGet
    rw [List.find?_cons_of_neg _ (by simp [beq_eq_false_iff_ne.2 (Ne.symm hne5)])]
    rfl
  · rw [hrowSF] at hne7 ⊢
    rw [hdict]
    unfold dictGet
    rw [List.find?_cons_of_neg _ (by simp [beq_eq_false_iff_ne.2 (Ne.symm hne7)])]
    rfl

/-- Claim C10 witness: the amended theorem on a concrete employee and rows. -/
theorem claim_C10_witness :
    dictGet (get_employees [(⟨"7", some "X", none, some "Y"⟩ : Employee)]).1
      (rowFullName (lastN ⟨"7", some "X", none, some "Y"⟩) ""
        (middleN ⟨"7", some "X", none, some "Y"⟩)) =
      some (entryOf ⟨"7", some "X", none, some "Y"⟩) ∧
    dictGet (get_employees [(⟨"7", some "X", none, some "Y"⟩ : Employee)]).1
      (rowFullName "Q" "" "") = none ∧
    dictGet (get_employees [(⟨"7", some "X", none, some "Y"⟩ : Employee)]).1
      (rowFullName "A" "B" "") = none := by
  have h := claim_C10_amended ⟨"7", some "X", none, some "Y"⟩ "Q" "A" "B"
    (by decide) (by decide) (by decide) (by decide) (by decide)
    (by decide) (by decide) (by decide) (by decide) (by decide)
  exact ⟨h.2.2.2.1, h.2.2.2.2.2.1, h.2.2.2.2.2.2.2⟩

end CalendarEvents
